import Mathlib

/-!
# tm-db Redis backend: store facade, batch and range iterator

A shallow embedding of `redisdb.go`, `redisdb_batch.go` and
`redisdb_iterator.go`.

* Go `string` values are byte lists (`GoString`); a Go `[]byte` is an
  `Option` of a byte list, `none` being the `nil` slice.
* A Go `error` return is an `Option DBError`, `none` being `nil`.
* A call that may abort (a Go panic) returns a `Run`.
* The Redis server is an explicit `Store` value: one key space holding the
  primary entries and the sorted set stored under `redisKeyIndex`.
* The client is the go-redis pipeline as the package uses it: commands are
  queued with the arguments the code gives, encoded, and executed in order.
-/

namespace TmDb

/-! ## Go values -/

abbrev Byte := UInt8

/-- A Go `string`: an immutable byte sequence. -/
abbrev GoString := List Byte

/-- A Go `[]byte`; `none` is the `nil` slice, `some []` a non-nil empty one. -/
abbrev Bytes := Option (List Byte)

/-- Go `len(b)` of a slice; the `nil` slice has length zero. -/
def Bytes.len : Bytes → Nat
  | none => 0
  | some l => l.length

/-- Go `string(b)` of a slice; the `nil` slice converts to the empty string. -/
def Bytes.str : Bytes → GoString
  | none => []
  | some l => l

/-- An error produced by the Redis client (transport, protocol or server side). -/
structure RedisError where
  code : Nat
  deriving DecidableEq

/-- The error values the package returns. -/
inductive DBError where
  | errKeyEmpty
  | errValueNil
  | errBatchClosed
  | redis (e : RedisError)
  deriving DecidableEq

/-- Result of running a piece of Go code: a normal return, a panic, or the
model running out of loop budget. -/
inductive Run (α : Type) where
  | ret (a : α)
  | panic
  | outOfFuel
  deriving DecidableEq

/-! ## The backing store -/

/-- The constant `redisKeyIndex = "__index__"`. -/
def redisKeyIndex : GoString := [95, 95, 105, 110, 100, 101, 120, 95, 95]

/-- The `redis.Z` struct: a score and a member. -/
structure Z where
  Score : Int
  Member : GoString
  deriving DecidableEq

/-- A value passed where the client takes `interface{}` members: the code
passes either a Go string or a `redis.Z` struct. -/
inductive Arg where
  | str (s : GoString)
  | z (v : Z)
  deriving DecidableEq

/-- The commands the package queues on a pipeline, with the arguments it gives. -/
inductive Cmd where
  | Set (key value : GoString)
  | Del (key : GoString)
  | ZAdd (zkey : GoString) (member : Z)
  | ZRem (zkey : GoString) (member : Arg)
  deriving DecidableEq

/-- Byte-wise lexicographic comparison of two strings (all members of the
index have the same score, so the sorted set orders them this way). -/
def keyLess : GoString → GoString → Bool
  | [], [] => false
  | [], _ :: _ => true
  | _ :: _, [] => false
  | a :: as, b :: bs => a < b || (a == b && keyLess as bs)

/-- A value held under a key of the server: a string, or a sorted set given
by its members in ascending byte order (every member has score 0, the only
score the package gives). -/
inductive RedisVal where
  | str (s : GoString)
  | zset (members : List GoString)
  deriving DecidableEq

/-- The server state: one key space shared by the primary entries and the
sorted set, an association list with one pair per key. -/
structure Store where
  keys : List (GoString × RedisVal)
  deriving DecidableEq

/-- The value held under a key, if any. -/
def Store.find (st : Store) (key : GoString) : Option RedisVal :=
  (st.keys.find? (fun p => p.1 == key)).map Prod.snd

/-- The key space with `key` now holding `v`, whatever it held before. -/
def Store.put (st : Store) (key : GoString) (v : RedisVal) : Store :=
  { keys := (key, v) :: st.keys.filter (fun p => !(p.1 == key)) }

/-- The key space without `key`. -/
def Store.remove (st : Store) (key : GoString) : Store :=
  { keys := st.keys.filter (fun p => !(p.1 == key)) }

/-- The primary entry of a key: the string held under it, if it holds one. -/
def Store.get (st : Store) (key : GoString) : Option GoString :=
  match st.find key with
  | some (.str s) => some s
  | _ => none

/-- The ordering index: the members of the sorted set held under
`redisKeyIndex`, none when that key is missing or holds a string. -/
def Store.index (st : Store) : List GoString :=
  match st.find redisKeyIndex with
  | some (.zset members) => members
  | _ => []

/-- Insert a member into an ascending list, leaving it alone when present. -/
def zinsert (m : GoString) : List GoString → List GoString
  | [] => [m]
  | x :: xs => if m == x then x :: xs else if keyLess m x then m :: x :: xs else x :: zinsert m xs

/-- A command as it travels to the server: every argument is a string. -/
inductive Request where
  | SET (key value : GoString)
  | DEL (key : GoString)
  | ZADD (zkey : GoString) (score : Int) (member : GoString)
  | ZREM (zkey : GoString) (member : GoString)
  deriving DecidableEq

/-- The client error for an argument it cannot encode. -/
def errMarshal : RedisError := { code := 2 }

/-- The server error for a command on a key holding the wrong kind of value. -/
def errWrongType : RedisError := { code := 3 }

/-- The client encoding a command: a `redis.Z` struct given as a member of
`ZRem` cannot be encoded. -/
def Cmd.encode : Cmd → Option Request
  | .Set key value => some (.SET key value)
  | .Del key => some (.DEL key)
  | .ZAdd zkey member => some (.ZADD zkey member.Score member.Member)
  | .ZRem zkey (.str s) => some (.ZREM zkey s)
  | .ZRem _ (.z _) => none

/-- The client encoding a queue of commands, `none` when one cannot be encoded. -/
def encodeAll : List Cmd → Option (List Request)
  | [] => some []
  | c :: cs =>
    match c.encode, encodeAll cs with
    | some r, some rs => some (r :: rs)
    | _, _ => none

/-- The server executing one request: its error reply, if any, and the key
space afterwards. `SET` and `DEL` act on a key whatever it holds; `ZADD` and
`ZREM` are refused on a key holding a string; a sorted set that loses its
last member is removed with its key. -/
def Store.exec (st : Store) : Request → Option RedisError × Store
  | .SET key value => (none, st.put key (.str value))
  | .DEL key => (none, st.remove key)
  | .ZADD zkey _ member =>
    match st.find zkey with
    | some (.str _) => (some errWrongType, st)
    | some (.zset members) => (none, st.put zkey (.zset (zinsert member members)))
    | none => (none, st.put zkey (.zset [member]))
  | .ZREM zkey member =>
    match st.find zkey with
    | some (.str _) => (some errWrongType, st)
    | some (.zset members) =>
      if (members.filter (fun m => !(m == member))).isEmpty then (none, st.remove zkey)
      else (none, st.put zkey (.zset (members.filter (fun m => !(m == member)))))
    | none => (none, st)

/-- The server executing requests in order: a request that fails changes
nothing and the others are still executed; the first error is reported. -/
def Store.execAll (st : Store) : List Request → Option RedisError × Store
  | [] => (none, st)
  | r :: rs =>
    match (st.exec r).1 with
    | some e => (some e, ((st.exec r).2.execAll rs).2)
    | none => (st.exec r).2.execAll rs

/-- The `Exec` of a pipeline (`Pipelined`, or a transaction pipeline) holding
`cmds`: an empty queue makes no round trip and gives no error; when the
connection cannot be made (`fault`) nothing reaches the server; when a command
cannot be encoded nothing is sent; otherwise the server executes the requests
and the first error among the replies is returned. -/
def Store.roundTrip (st : Store) (fault : Option RedisError) (cmds : List Cmd) :
    Option RedisError × Store :=
  match cmds with
  | [] => (none, st)
  | _ :: _ =>
    match fault with
    | some e => (some e, st)
    | none =>
      match encodeAll cmds with
      | none => (some errMarshal, st)
      | some reqs => st.execAll reqs

/-- Server `GET`: the string under a key, `none` for a missing key, an error
for a key holding a sorted set. -/
def Store.GET (st : Store) (key : GoString) : Except RedisError (Option GoString) :=
  match st.find key with
  | none => .ok none
  | some (.str s) => .ok (some s)
  | some (.zset _) => .error errWrongType

/-! ## redisdb.go -/

/-- The `RedisDB` handle: the server this client talks to. -/
structure RedisDB where
  db : Store
  deriving DecidableEq

/-- `RedisDB.Get`: `fault` is a failure of the connection; a missing key
(`redis.Nil`) is returned as a `nil` slice without error. -/
def RedisDB.Get (db : RedisDB) (fault : Option RedisError) (key : Bytes) :
    Bytes × Option DBError :=
  if key.len = 0 then (none, some .errKeyEmpty)
  else
    match fault with
    | some e => (none, some (.redis e))
    | none =>
      match db.db.GET key.str with
      | .error e => (none, some (.redis e))
      | .ok none => (none, none)
      | .ok (some res) => (some res, none)

/-- `RedisDB.Has`. -/
def RedisDB.Has (db : RedisDB) (fault : Option RedisError) (key : Bytes) :
    Bool × Option DBError :=
  if key.len = 0 then (false, some .errKeyEmpty)
  else
    match db.Get fault key with
    | (_, some err) => (false, some err)
    | (bytes, none) => (bytes.isSome, none)

/-- `RedisDB.SetSync`: returns the error and the handle afterwards. -/
def RedisDB.SetSync (db : RedisDB) (fault : Option RedisError) (key value : Bytes) :
    Option DBError × RedisDB :=
  if key.len = 0 then (some .errKeyEmpty, db)
  else if value = none then (some .errValueNil, db)
  else
    let r := db.db.roundTrip fault
      [.Set key.str value.str, .ZAdd redisKeyIndex { Score := 0, Member := key.str }]
    (r.1.map .redis, { db := r.2 })

/-- `RedisDB.Set`. -/
def RedisDB.Set (db : RedisDB) (fault : Option RedisError) (key value : Bytes) :
    Option DBError × RedisDB :=
  db.SetSync fault key value

/-- `RedisDB.DeleteSync`. -/
def RedisDB.DeleteSync (db : RedisDB) (fault : Option RedisError) (key : Bytes) :
    Option DBError × RedisDB :=
  if key.len = 0 then (some .errKeyEmpty, db)
  else
    let r := db.db.roundTrip fault [.Del key.str, .ZRem redisKeyIndex (.str key.str)]
    (r.1.map .redis, { db := r.2 })

/-- `RedisDB.Delete`. -/
def RedisDB.Delete (db : RedisDB) (fault : Option RedisError) (key : Bytes) :
    Option DBError × RedisDB :=
  db.DeleteSync fault key

/-! ## redisdb_batch.go -/

/-- The `redisDBBatch` struct: `batch` is the transaction pipeline with its
queued commands, `none` once it has been set to `nil`. -/
structure redisDBBatch where
  batch : Option (List Cmd)
  deriving DecidableEq

/-- `newRedisDBBatch`: a fresh transaction pipeline with nothing queued. -/
def newRedisDBBatch : redisDBBatch := { batch := some [] }

/-- `redisDBBatch.Set`: queues `ZADD` then `SET`; calling a method of the
`nil` pipeline is a nil dereference. -/
def redisDBBatch.Set (b : redisDBBatch) (key value : Bytes) : Run (Option DBError × redisDBBatch) :=
  if key.len = 0 then .ret (some .errKeyEmpty, b)
  else
    match b.batch with
    | none => .panic
    | some q =>
      .ret (none, { batch := some (q ++ [.ZAdd redisKeyIndex { Score := 0, Member := key.str },
                                          .Set key.str value.str]) })

/-- `redisDBBatch.Delete`: queues `ZREM` (given a `redis.Z` struct as the
member) then `DEL`. -/
def redisDBBatch.Delete (b : redisDBBatch) (key : Bytes) : Run (Option DBError × redisDBBatch) :=
  if key.len = 0 then .ret (some .errKeyEmpty, b)
  else
    match b.batch with
    | none => .panic
    | some q =>
      .ret (none, { batch := some (q ++ [.ZRem redisKeyIndex (.z { Score := 0, Member := key.str }),
                                          .Del key.str]) })

/-- `redisDBBatch.Close`. -/
def redisDBBatch.Close (_b : redisDBBatch) : Option DBError × redisDBBatch :=
  (none, { batch := none })

/-- `redisDBBatch.write`: `Exec` takes the queued commands out of the
pipeline, leaving its queue empty whatever the outcome; only after an `Exec`
without error is the batch closed. -/
def redisDBBatch.write (b : redisDBBatch) (db : RedisDB) (fault : Option RedisError) (_sync : Bool) :
    Option DBError × redisDBBatch × RedisDB :=
  match b.batch with
  | none => (some .errBatchClosed, b, db)
  | some q =>
    let r := db.db.roundTrip fault q
    let b1 : redisDBBatch := { batch := some [] }
    match r.1 with
    | some err => (some (.redis err), b1, { db := r.2 })
    | none => (b1.Close.1, b1.Close.2, { db := r.2 })

/-- `redisDBBatch.Write`. -/
def redisDBBatch.Write (b : redisDBBatch) (db : RedisDB) (fault : Option RedisError) :
    Option DBError × redisDBBatch × RedisDB :=
  b.write db fault false

/-- `redisDBBatch.WriteSync`. -/
def redisDBBatch.WriteSync (b : redisDBBatch) (db : RedisDB) (fault : Option RedisError) :
    Option DBError × redisDBBatch × RedisDB :=
  b.write db fault true

/-! ## Go `strings` functions used by `Stats` -/

/-- `strings.HasPrefix`. -/
def stringsHasPrefix (s pre : GoString) : Bool := pre.isPrefixOf s

/-- The cutting loop of `strings.Split` for a non-empty separator: `cur` is
the piece being read and `skip` the number of bytes of a found separator still
to pass over; a piece ends at each leftmost occurrence of `sep` that does not
overlap the previous one. -/
def splitLoop (sep : GoString) : GoString → Nat → GoString → List GoString
  | [], _, cur => [cur]
  | _ :: cs, skip + 1, cur => splitLoop sep cs skip cur
  | c :: cs, 0, cur =>
    if sep.isPrefixOf (c :: cs) then cur :: splitLoop sep cs (sep.length - 1) []
    else splitLoop sep cs 0 (cur ++ [c])

/-- `strings.Split(s, sep)` for a non-empty `sep`. -/
def stringsSplit (s sep : GoString) : List GoString := splitLoop sep s 0 []

/-- `strings.Join(elems, sep)`. -/
def stringsJoin : List GoString → GoString → GoString
  | [], _ => []
  | [a], _ => a
  | a :: b :: rest, sep => a ++ sep ++ stringsJoin (b :: rest) sep

/-- The separator "\r\n". -/
def crlf : GoString := [13, 10]

/-- The byte ':'. -/
def colon : Byte := 58

/-- The byte '#'. -/
def hash : Byte := 35

/-- The literal "n/a". -/
def notAvailable : GoString := [110, 47, 97]

/-- A Go `map[string]string` as an association list with one pair per key. -/
abbrev StatsMap := List (GoString × GoString)

/-- The assignment `m[k] = v`. -/
def mapSet (m : StatsMap) (k v : GoString) : StatsMap :=
  (k, v) :: m.filter (fun p => !(p.1 == k))

/-- The body of the `for _, e := range entries` loop of `Stats`. -/
def statsEntry (stats : StatsMap) (e : GoString) : StatsMap :=
  if stringsHasPrefix e [hash] then stats
  else
    let entry := stringsSplit e [colon]
    if entry.length > 1 then mapSet stats (entry.headD []) (stringsJoin (entry.drop 1) [colon])
    else mapSet stats e notAvailable

/-- `RedisDB.Stats`: `info` is the outcome of the `INFO stats` request; an
error makes `Stats` panic. -/
def RedisDB.Stats (info : Except RedisError GoString) : Run StatsMap :=
  match info with
  | .error _ => .panic
  | .ok res => .ret ((stringsSplit res crlf).foldl statsEntry [])

/-! ## The client requests the iterator issues -/

/-- The `redis.ZRangeBy` struct. -/
structure ZRangeBy where
  Min : GoString
  Max : GoString
  Offset : Nat
  Count : Nat
  deriving DecidableEq

/-- The requests the iterator sends through its `redis.Client`, each with
the reply the connection gives: a page of members of a sorted set by
lexicographic range (ascending and descending) and a bulk lookup, whose
reply holds a string or `nil` for each key. -/
structure Client where
  ZRangeByLex : GoString → ZRangeBy → Except RedisError (List GoString)
  ZRevRangeByLex : GoString → ZRangeBy → Except RedisError (List GoString)
  MGet : List GoString → Except RedisError (List (Option GoString))

/-- A bound of a lexicographic range as the server reads it. -/
inductive LexBound where
  | negInf
  | posInf
  | incl (s : GoString)
  | excl (s : GoString)
  deriving DecidableEq

/-- The server reading a range bound: "-" and "+" are the two infinities,
"[" starts an inclusive and "(" an exclusive bound, anything else is
refused. -/
def parseLexBound (spec : GoString) : Option LexBound :=
  match spec with
  | [] => none
  | c :: rest =>
    if c == 45 then (if rest.isEmpty then some .negInf else none)
    else if c == 43 then (if rest.isEmpty then some .posInf else none)
    else if c == 91 then some (.incl rest)
    else if c == 40 then some (.excl rest)
    else none

/-- Whether member `v` lies at or above the lower bound. -/
def LexBound.geMin (b : LexBound) (v : GoString) : Bool :=
  match b with
  | .negInf => true
  | .posInf => false
  | .incl s => !(keyLess v s)
  | .excl s => keyLess s v

/-- Whether member `v` lies at or below the upper bound. -/
def LexBound.leMax (b : LexBound) (v : GoString) : Bool :=
  match b with
  | .negInf => false
  | .posInf => true
  | .incl s => !(keyLess s v)
  | .excl s => keyLess v s

/-- The members of a sorted set found under a key, none for a missing key. -/
def zmembers : Option RedisVal → List GoString
  | some (.zset members) => members
  | _ => []

/-- The error a server gives for a range bound it cannot read. -/
def errLexRange : RedisError := { code := 1 }

/-- Server `ZRANGEBYLEX zkey min max LIMIT offset count`: the bounds are read
first, then a key holding a string is refused. -/
def Store.zrangeByLex (st : Store) (zkey : GoString) (r : ZRangeBy) :
    Except RedisError (List GoString) :=
  match parseLexBound r.Min, parseLexBound r.Max with
  | some lo, some hi =>
    match st.find zkey with
    | some (.str _) => .error errWrongType
    | found =>
      .ok ((((zmembers found).filter (fun v => lo.geMin v && hi.leMax v)).drop r.Offset).take r.Count)
  | _, _ => .error errLexRange

/-- Server `ZREVRANGEBYLEX zkey max min LIMIT offset count`: the same
members from the highest down. -/
def Store.zrevrangeByLex (st : Store) (zkey : GoString) (r : ZRangeBy) :
    Except RedisError (List GoString) :=
  match parseLexBound r.Min, parseLexBound r.Max with
  | some lo, some hi =>
    match st.find zkey with
    | some (.str _) => .error errWrongType
    | found =>
      .ok (((((zmembers found).filter (fun v => lo.geMin v && hi.leMax v)).reverse).drop r.Offset).take
        r.Count)
  | _, _ => .error errLexRange

/-- A connection that never fails, answering from the server state; the
bulk lookup holds `nil` for a key that is missing or holds no string. -/
def storeClient (st : Store) : Client where
  ZRangeByLex := st.zrangeByLex
  ZRevRangeByLex := st.zrevrangeByLex
  MGet := fun keys => .ok (keys.map st.get)

/-! ## redisdb_iterator.go -/

/-- The constant `dbBufferLimit`. -/
def dbBufferLimit : Nat := 10000

/-- The `kvItem` struct. -/
structure kvItem where
  key : GoString
  val : GoString
  deriving DecidableEq

/-- The `redisDBIterator` struct. `buff` holds the pairs the channel will
still deliver before it is closed, in order. -/
structure redisDBIterator where
  start : Bytes
  end_ : Bytes
  buff : List kvItem
  item : Option kvItem
  isInvalid : Bool
  deriving DecidableEq

/-- How the producer goroutine ended. -/
inductive ProducerEnd where
  | emptyPage
  | queryError (e : RedisError)
  | lookupError (e : RedisError)
  | panicked
  deriving DecidableEq

/-- The loop `for i := range keys` of the producer: the pairs sent on the
channel, and `false` when building a pair panicked (`values[i]` missing, or
the assertion `values[i].(string)` on a `nil` value). -/
def sendPage : List GoString → List (Option GoString) → List kvItem × Bool
  | [], _ => ([], true)
  | _ :: _, [] => ([], false)
  | _ :: _, none :: _ => ([], false)
  | k :: ks, some v :: vs => ({ key := k, val := v } :: (sendPage ks vs).1, (sendPage ks vs).2)

/-- The producer goroutine, run while nobody cancels it: `fuel` bounds the
number of pages, `offset` is the loop variable (an `int64` counting the pairs
sent, which stays below the number of members and so never wraps). It returns
every pair sent on the channel and how it ended, `none` when `fuel` pages were
not enough. -/
def producerLoop (keySetFn : Nat → Except RedisError (List GoString))
    (mget : List GoString → Except RedisError (List (Option GoString))) :
    Nat → Nat → Option (List kvItem × ProducerEnd)
  | 0, _ => none
  | fuel + 1, offset =>
    match keySetFn offset with
    | .error e => some ([], .queryError e)
    | .ok keys =>
      if keys.length = 0 then some ([], .emptyPage)
      else
        match mget keys with
        | .error e => some ([], .lookupError e)
        | .ok values =>
          match sendPage keys values with
          | (items, false) => some (items, .panicked)
          | (items, true) =>
            match producerLoop keySetFn mget fuel (offset + items.length) with
            | none => none
            | some (more, how) => some (items ++ more, how)

/-- The range bound `highKey`. -/
def highKey (end_ : Bytes) : GoString :=
  if end_ = none then [43] else 40 :: end_.str

/-- The range bound `lowKey`. -/
def lowKey (start : Bytes) : GoString :=
  if start = none then [45] else 91 :: start.str

/-- The closure `keySetFn`. -/
def keySetFn (db : Client) (start end_ : Bytes) (isReverse : Bool) (offset : Nat) :
    Except RedisError (List GoString) :=
  if isReverse then
    db.ZRevRangeByLex redisKeyIndex
      { Max := highKey end_, Min := lowKey start, Offset := offset, Count := dbBufferLimit }
  else
    db.ZRangeByLex redisKeyIndex
      { Min := lowKey start, Max := highKey end_, Offset := offset, Count := dbBufferLimit }

/-- `newRedisDBIterator`: the producer runs to its end, the first pair it
sent primes `item` and the others wait in `buff`. A panic of the producer
goroutine aborts the program. -/
def newRedisDBIterator (db : Client) (start end_ : Bytes) (isReverse : Bool) (fuel : Nat) :
    Run (redisDBIterator × Option DBError) :=
  match producerLoop (keySetFn db start end_ isReverse) db.MGet fuel 0 with
  | none => .outOfFuel
  | some (_, .panicked) => .panic
  | some (items, _) =>
    .ret ({ start := start, end_ := end_, buff := items.tail, item := items.head?,
            isInvalid := false }, none)

/-- `redisDBIterator.Domain`. -/
def redisDBIterator.Domain (itr : redisDBIterator) : Bytes × Bytes :=
  (itr.start, itr.end_)

/-- `redisDBIterator.Error`. -/
def redisDBIterator.Error (_itr : redisDBIterator) : Option DBError := none

/-- `redisDBIterator.Valid`: the result and the iterator afterwards. -/
def redisDBIterator.Valid (itr : redisDBIterator) : Bool × redisDBIterator :=
  if itr.isInvalid then (false, itr)
  else
    match itr.Error with
    | some _ => (false, { itr with isInvalid := true })
    | none => (itr.item.isSome, itr)

/-- `redisDBIterator.assertIsValid`: it has a value receiver, so it works on
a copy and leaves the iterator as it was. -/
def redisDBIterator.assertIsValid (itr : redisDBIterator) : Run Unit :=
  if itr.Valid.1 then .ret () else .panic

/-- `redisDBIterator.Key`. -/
def redisDBIterator.Key (itr : redisDBIterator) : Run GoString :=
  match itr.assertIsValid with
  | .ret _ =>
    match itr.item with
    | some item => .ret item.key
    | none => .panic
  | .panic => .panic
  | .outOfFuel => .outOfFuel

/-- `redisDBIterator.Value`. -/
def redisDBIterator.Value (itr : redisDBIterator) : Run GoString :=
  match itr.assertIsValid with
  | .ret _ =>
    match itr.item with
    | some item => .ret item.val
    | none => .panic
  | .panic => .panic
  | .outOfFuel => .outOfFuel

/-- `redisDBIterator.Next`: receives from the channel; a closed and empty
channel clears `item`. -/
def redisDBIterator.Next (itr : redisDBIterator) : Run redisDBIterator :=
  match itr.assertIsValid with
  | .ret _ =>
    match itr.buff with
    | item :: rest => .ret { itr with item := some item, buff := rest }
    | [] => .ret { itr with item := none }
  | .panic => .panic
  | .outOfFuel => .outOfFuel

/-- `redisDBIterator.Close`: cancels the producer, drains the channel until
it is closed and clears `item`. -/
def redisDBIterator.Close (itr : redisDBIterator) : Option DBError × redisDBIterator :=
  (none, { itr with buff := [], item := none })

/-- `RedisDB.Iterator`: `link` is the connection through which the iterator
reaches the server. -/
def RedisDB.Iterator (db : RedisDB) (link : Store → Client) (start end_ : Bytes) (fuel : Nat) :
    Run (Option redisDBIterator × Option DBError) :=
  if (start ≠ none ∧ start.len = 0) ∨ (end_ ≠ none ∧ end_.len = 0) then
    .ret (none, some .errKeyEmpty)
  else
    match newRedisDBIterator (link db.db) start end_ false fuel with
    | .ret (itr, err) => .ret (some itr, err)
    | .panic => .panic
    | .outOfFuel => .outOfFuel

/-- `RedisDB.ReverseIterator`. -/
def RedisDB.ReverseIterator (db : RedisDB) (link : Store → Client) (start end_ : Bytes)
    (fuel : Nat) : Run (Option redisDBIterator × Option DBError) :=
  if (start ≠ none ∧ start.len = 0) ∨ (end_ ≠ none ∧ end_.len = 0) then
    .ret (none, some .errKeyEmpty)
  else
    match newRedisDBIterator (link db.db) start end_ true fuel with
    | .ret (itr, err) => .ret (some itr, err)
    | .panic => .panic
    | .outOfFuel => .outOfFuel

/-! ## Driving an iterator -/

/-- The consumer loop `for ; itr.Valid(); itr.Next() { ... itr.Key(), itr.Value() ... }`:
the pairs read, and the iterator once `Valid()` has returned false. -/
def scan : Nat → redisDBIterator → Run (List (GoString × GoString) × redisDBIterator)
  | 0, _ => .outOfFuel
  | fuel + 1, itr =>
    match itr.Valid with
    | (false, itr1) => .ret ([], itr1)
    | (true, itr1) =>
      match itr1.Key, itr1.Value, itr1.Next with
      | .ret k, .ret v, .ret itr2 =>
        match scan fuel itr2 with
        | .ret (rest, last) => .ret ((k, v) :: rest, last)
        | .panic => .panic
        | .outOfFuel => .outOfFuel
      | .outOfFuel, _, _ => .outOfFuel
      | _, .outOfFuel, _ => .outOfFuel
      | _, _, .outOfFuel => .outOfFuel
      | _, _, _ => .panic

/-- The calls a consumer can make on an iterator. -/
inductive IterOp where
  | Valid
  | Key
  | Value
  | Next
  | Error
  | Domain
  | Close
  deriving DecidableEq

/-- What one call returned. -/
inductive IterObs where
  | valid (b : Bool)
  | bytes (k : GoString)
  | err (e : Option DBError)
  | domain (d : Bytes × Bytes)
  | unit
  deriving DecidableEq

/-- One call on an iterator: what it returned and the iterator afterwards. -/
def IterOp.call (op : IterOp) (itr : redisDBIterator) : Run (IterObs × redisDBIterator) :=
  match op with
  | .Valid => .ret (.valid itr.Valid.1, itr.Valid.2)
  | .Key =>
    match itr.Key with
    | .ret k => .ret (.bytes k, itr)
    | .panic => .panic
    | .outOfFuel => .outOfFuel
  | .Value =>
    match itr.Value with
    | .ret v => .ret (.bytes v, itr)
    | .panic => .panic
    | .outOfFuel => .outOfFuel
  | .Next =>
    match itr.Next with
    | .ret itr1 => .ret (.unit, itr1)
    | .panic => .panic
    | .outOfFuel => .outOfFuel
  | .Error => .ret (.err itr.Error, itr)
  | .Domain => .ret (.domain itr.Domain, itr)
  | .Close => .ret (.err itr.Close.1, itr.Close.2)

/-- A sequence of calls, one after the other; a panic aborts the sequence. -/
def runOps : List IterOp → redisDBIterator → Run (List IterObs × redisDBIterator)
  | [], itr => .ret ([], itr)
  | op :: ops, itr =>
    match op.call itr with
    | .ret (o, itr1) =>
      match runOps ops itr1 with
      | .ret (os, last) => .ret (o :: os, last)
      | .panic => .panic
      | .outOfFuel => .outOfFuel
    | .panic => .panic
    | .outOfFuel => .outOfFuel

/-- The results of the `Valid()` calls among the observations, in order. -/
def validResults : List IterObs → List Bool
  | [] => []
  | .valid b :: os => b :: validResults os
  | _ :: os => validResults os

/-! ## Specification-side definitions and concrete stores -/

/-- The lines of a report as the specification words them: the report cut
at each "\r\n", read from the left. -/
def specLines : GoString → List GoString
  | [] => [[]]
  | [c] => [[c]]
  | c :: d :: rest =>
    if c = 13 ∧ d = 10 then [] :: specLines rest
    else
      match specLines (d :: rest) with
      | [] => [[c]]
      | line :: more => (c :: line) :: more

/-- What one line contributes as the specification words it: nothing when it
begins with '#'; the text before its first ':' mapped to the whole text after
that ':' when it contains one; otherwise the whole line mapped to "n/a". -/
def specEntry (line : GoString) : Option (GoString × GoString) :=
  if line.head? = some 35 then none
  else if (58 : Byte) ∈ line then
    some (line.takeWhile (fun c => c != 58), (line.dropWhile (fun c => c != 58)).drop 1)
  else some (line, [110, 47, 97])

/-- The value the specification gives a name over the lines in order: that
of the last line contributing this name, a later line overriding an earlier
one. -/
def specValue (name : GoString) : List GoString → Option GoString
  | [] => none
  | line :: later =>
    match specValue name later with
    | some v => some v
    | none =>
      match specEntry line with
      | some (k, v) => if k = name then some v else none
      | none => none

/-- The domain as the specification words it: whether key `k` lies in
`[start, end_)`, a `nil` bound being no bound, that is `start <= k` and
`k < end_` in byte order. -/
def inDomain (start end_ : Bytes) (k : GoString) : Bool :=
  (match start with
    | none => true
    | some s => !(keyLess k s)) &&
  (match end_ with
    | none => true
    | some e => keyLess k e)

/-- The pair the producer builds for key `k` when the bulk lookup holds the
string `v` for it. -/
def pairOf (st : Store) (k : GoString) : kvItem :=
  { key := k, val := (st.get k).getD [] }

/-- A store holding the keys "a", "b", "c", "d". -/
def abcdStore : Store :=
  { keys := [(redisKeyIndex, .zset [[97], [98], [99], [100]]), ([97], .str [49]),
             ([98], .str [50]), ([99], .str [51]), ([100], .str [52])] }

/-- The store with nothing in it. -/
def emptyDB : RedisDB := { db := { keys := [] } }

/-- A connection over `abcdStore` whose page query succeeds for the first
page and fails for every later one. -/
def failingClient : Client where
  ZRangeByLex := fun zkey r =>
    if r.Offset = 0 then abcdStore.zrangeByLex zkey r else .error { code := 7 }
  ZRevRangeByLex := fun zkey r =>
    if r.Offset = 0 then abcdStore.zrevrangeByLex zkey r else .error { code := 7 }
  MGet := fun keys => .ok (keys.map abcdStore.get)

/-- A store whose index holds "a" while "a" has no primary entry. -/
def danglingStore : Store := { keys := [(redisKeyIndex, .zset [[97]])] }

/-- An iterator holding the pair ("a", "1") with nothing more to come. -/
def lastPairIterator : redisDBIterator :=
  { start := none, end_ := none, buff := [], item := some { key := [97], val := [49] },
    isInvalid := false }

/-! ## Statistics report -/

theorem splitLoop_single_cons (c x : Byte) (xs cur : GoString) :
    splitLoop [c] (x :: xs) 0 cur =
      if c == x then cur :: splitLoop [c] xs 0 [] else splitLoop [c] xs 0 (cur ++ [x]) := by
  simp [splitLoop, List.isPrefixOf]

theorem splitLoop_ne_nil (sep s : GoString) : ∀ (skip : Nat) (cur : GoString), splitLoop sep s skip cur ≠ [] := by
  induction s with
  | nil => intro skip cur; simp [splitLoop]
  | cons x xs ih =>
    intro skip cur
    cases skip with
    | zero =>
      simp only [splitLoop]
      split
      · simp
      · exact ih _ _
    | succ n => simpa [splitLoop] using ih n cur

theorem splitLoop_single_not_mem (c : Byte) (s : GoString) :
    ∀ cur : GoString, c ∉ s → splitLoop [c] s 0 cur = [cur ++ s] := by
  induction s with
  | nil => intro cur _; simp [splitLoop]
  | cons x xs ih =>
    intro cur h
    have hx : ¬ c = x := fun e => h (by simp [e])
    have hxs : c ∉ xs := fun e => h (by simp [e])
    rw [splitLoop_single_cons]
    simp [hx, ih _ hxs]

theorem splitLoop_single_mem (c : Byte) (s : GoString) :
    ∀ cur : GoString, c ∈ s →
      splitLoop [c] s 0 cur =
        (cur ++ s.takeWhile (fun b => b != c)) ::
          splitLoop [c] ((s.dropWhile (fun b => b != c)).drop 1) 0 [] := by
  induction s with
  | nil => intro cur h; simp at h
  | cons x xs ih =>
    intro cur h
    rw [splitLoop_single_cons]
    by_cases hx : c = x
    · subst hx
      simp [List.takeWhile, List.dropWhile]
    · have hxs : c ∈ xs := by
        rcases List.mem_cons.1 h with e | e
        · exact absurd e hx
        · exact e
      have hb : (x != c) = true := by
        simp only [bne_iff_ne, ne_eq]
        exact fun e => hx e.symm
      simp [hx, hb, List.takeWhile_cons, List.dropWhile_cons, ih _ hxs]

theorem stringsJoin_cons (a : GoString) (l : List GoString) (sep : GoString) (h : l ≠ []) :
    stringsJoin (a :: l) sep = a ++ sep ++ stringsJoin l sep := by
  cases l with
  | nil => exact absurd rfl h
  | cons b rest => simp [stringsJoin]

theorem stringsJoin_splitLoop (c : Byte) (s : GoString) :
    ∀ cur : GoString, stringsJoin (splitLoop [c] s 0 cur) [c] = cur ++ s := by
  induction s with
  | nil => intro cur; simp [splitLoop, stringsJoin]
  | cons x xs ih =>
    intro cur
    rw [splitLoop_single_cons]
    by_cases hx : c = x
    · subst hx
      simp [stringsJoin_cons _ _ _ (splitLoop_ne_nil _ _ _ _), ih]
    · simp [hx, ih]

theorem stringsHasPrefix_hash (e : GoString) :
    stringsHasPrefix e [hash] = true ↔ e.head? = some hash := by
  cases e with
  | nil => simp [stringsHasPrefix, List.isPrefixOf]
  | cons x xs =>
    simp [stringsHasPrefix, List.isPrefixOf]
    exact eq_comm

theorem statsEntry_eq_specEntry (stats : StatsMap) (e : GoString) :
    statsEntry stats e =
      match specEntry e with
      | none => stats
      | some (k, v) => mapSet stats k v := by
  have hh : hash = 35 := rfl
  have hcol : colon = 58 := rfl
  have hna : notAvailable = [110, 47, 97] := rfl
  unfold statsEntry specEntry
  by_cases hp : e.head? = some 35
  · have hp1 : stringsHasPrefix e [hash] = true := (stringsHasPrefix_hash e).2 (by rw [hh]; exact hp)
    simp [hp, hp1]
  · have hp2 : ¬ stringsHasPrefix e [hash] = true := fun h =>
      hp (by have := (stringsHasPrefix_hash e).1 h; rw [hh] at this; exact this)
    simp only [hp, hp2, if_false]
    by_cases hc : (58 : Byte) ∈ e
    · have hs := splitLoop_single_mem colon e [] (by rw [hcol]; exact hc)
      simp only [stringsSplit, hs, hc, if_true]
      have hlen : (([] ++ e.takeWhile (fun b => b != colon)) ::
          splitLoop [colon] ((e.dropWhile (fun b => b != colon)).drop 1) 0 []).length > 1 := by
        have := splitLoop_ne_nil [colon] ((e.dropWhile (fun b => b != colon)).drop 1) 0 []
        cases hq : splitLoop [colon] ((e.dropWhile (fun b => b != colon)).drop 1) 0 [] with
        | nil => exact absurd hq this
        | cons a b => simp
      rw [if_pos hlen]
      simp [stringsJoin_splitLoop, hcol]
    · have hs := splitLoop_single_not_mem colon e [] (by rw [hcol]; exact hc)
      simp [stringsSplit, hs, hc, hna]

theorem splitLoop_cons_zero (sep : GoString) (c : Byte) (cs cur : GoString) :
    splitLoop sep (c :: cs) 0 cur =
      if sep.isPrefixOf (c :: cs) then cur :: splitLoop sep cs (sep.length - 1) []
      else splitLoop sep cs 0 (cur ++ [c]) := by
  simp [splitLoop]

theorem splitLoop_crlf (s : GoString) :
    ∀ cur : GoString, ∃ line more, specLines s = line :: more ∧
      splitLoop crlf s 0 cur = (cur ++ line) :: more := by
  induction s using specLines.induct with
  | case1 => intro cur; exact ⟨[], [], rfl, by simp [splitLoop]⟩
  | case2 c =>
    intro cur
    refine ⟨[c], [], rfl, ?_⟩
    simp [splitLoop, crlf, List.isPrefixOf]
  | case3 c d rest h ih =>
    intro cur
    obtain ⟨line, more, hl, hs⟩ := ih []
    refine ⟨[], specLines rest, by simp [specLines, h], ?_⟩
    obtain ⟨hc, hd⟩ := h
    subst hc; subst hd
    simp only [List.nil_append] at hs
    have hs2 : splitLoop [13, 10] rest 0 [] = line :: more := hs
    simp [splitLoop, crlf, List.isPrefixOf, hs2, hl]
  | case4 c d rest h hnil ih =>
    intro cur
    obtain ⟨line, more, hl, _⟩ := ih cur
    rw [hnil] at hl
    cases hl
  | case5 c d rest h line more hl ih =>
    intro cur
    obtain ⟨line2, more2, hl2, hs⟩ := ih (cur ++ [c])
    rw [hl] at hl2
    simp only [List.cons.injEq] at hl2
    obtain ⟨e1, e2⟩ := hl2
    subst e1; subst e2
    refine ⟨c :: line, more, by simp [specLines, h, hl], ?_⟩
    have hpre : List.isPrefixOf crlf (c :: d :: rest) = false := by
      simp only [crlf, List.isPrefixOf, Bool.and_true]
      cases hcd : (13 == c && 10 == d) with
      | false => rfl
      | true =>
        simp only [Bool.and_eq_true, beq_iff_eq] at hcd
        exact absurd ⟨hcd.1.symm, hcd.2.symm⟩ h
    rw [splitLoop_cons_zero, hpre]
    simpa using hs

theorem stringsSplit_crlf (report : GoString) : stringsSplit report crlf = specLines report := by
  obtain ⟨line, more, hl, hs⟩ := splitLoop_crlf report []
  simp only [stringsSplit, hs, hl, List.nil_append]

theorem mem_mapSet (m : StatsMap) (k v n w : GoString) :
    (n, w) ∈ mapSet m k v ↔ (n = k ∧ w = v) ∨ (n ≠ k ∧ (n, w) ∈ m) := by
  simp only [mapSet, List.mem_cons, List.mem_filter, Prod.mk.injEq, Bool.not_eq_true',
    beq_eq_false_iff_ne, ne_eq]
  tauto

theorem nodup_mapSet (m : StatsMap) (k v : GoString) (h : (m.map Prod.fst).Nodup) :
    ((mapSet m k v).map Prod.fst).Nodup := by
  simp only [mapSet, List.map_cons, List.nodup_cons]
  refine ⟨?_, ?_⟩
  · intro hk
    simp only [List.mem_map, List.mem_filter] at hk
    obtain ⟨p, ⟨_, hp⟩, rfl⟩ := hk
    simp at hp
  · exact (h.sublist ((List.filter_sublist _).map _))

/-- Folding the loop body over the lines gives a map with one pair per name,
holding for each name the value of the last line that contributes it, and
otherwise what the map held before. -/
theorem foldl_statsEntry (lines : List GoString) :
    ∀ m0 : StatsMap, (m0.map Prod.fst).Nodup →
      ((lines.foldl statsEntry m0).map Prod.fst).Nodup ∧
      ∀ n w, (n, w) ∈ lines.foldl statsEntry m0 ↔
        (specValue n lines = some w ∨ (specValue n lines = none ∧ (n, w) ∈ m0)) := by
  induction lines with
  | nil => intro m0 h; simp [specValue, h]
  | cons line later ih =>
    intro m0 h
    have hstep := statsEntry_eq_specEntry m0 line
    have hnd : ((statsEntry m0 line).map Prod.fst).Nodup := by
      rw [hstep]
      cases specEntry line with
      | none => exact h
      | some p => exact nodup_mapSet m0 p.1 p.2 h
    obtain ⟨hn, hm⟩ := ih (statsEntry m0 line) hnd
    refine ⟨hn, ?_⟩
    intro n w
    simp only [List.foldl_cons]
    rw [hm n w, hstep]
    cases hl : specValue n later with
    | some v => simp [specValue, hl]
    | none =>
      cases he : specEntry line with
      | none => simp [specValue, hl, he]
      | some p =>
        obtain ⟨k, v⟩ := p
        simp only [specValue, hl, he, mem_mapSet]
        by_cases hk : k = n
        · subst hk
          simp
          exact eq_comm
        · have hk2 : ¬ n = k := fun e => hk e.symm
          simp [hk, hk2]

/-- C9: for every statistics report, `Stats` returns a map with one pair per
name in which a name has a value exactly when the specification gives it that
value: the report is split into lines on "\r\n" and the lines are treated in
order, later lines overriding earlier ones; a line that begins with '#' is
skipped, a line containing ':' maps the text before its first ':' to the whole
text after it, and any other line maps to "n/a". -/
theorem Stats_eq_spec (report : GoString) :
    ∃ stats : StatsMap, RedisDB.Stats (.ok report) = .ret stats ∧
      (stats.map Prod.fst).Nodup ∧
      ∀ name value : GoString,
        (name, value) ∈ stats ↔ specValue name (specLines report) = some value := by
  obtain ⟨hn, hm⟩ := foldl_statsEntry (specLines report) [] (by simp)
  refine ⟨(specLines report).foldl statsEntry [], ?_, hn, ?_⟩
  · simp [RedisDB.Stats, stringsSplit_crlf]
  · intro name value
    rw [hm name value]
    simp

/-! ## Range iteration -/

theorem parse_lowKey (start : Bytes) :
    parseLexBound (lowKey start) =
      some (match start with
        | none => LexBound.negInf
        | some s => LexBound.incl s) := by
  cases start with
  | none => simp [lowKey, parseLexBound]
  | some s =>
    have h1 : ((91 : Byte) == 45) = false := by decide
    have h2 : ((91 : Byte) == 43) = false := by decide
    simp [lowKey, parseLexBound, h1, h2, Bytes.str]

theorem parse_highKey (end_ : Bytes) :
    parseLexBound (highKey end_) =
      some (match end_ with
        | none => LexBound.posInf
        | some s => LexBound.excl s) := by
  cases end_ with
  | none =>
    have h1 : ((43 : Byte) == 45) = false := by decide
    simp [highKey, parseLexBound, h1]
  | some s =>
    have h1 : ((40 : Byte) == 45) = false := by decide
    have h2 : ((40 : Byte) == 43) = false := by decide
    have h3 : ((40 : Byte) == 91) = false := by decide
    simp [highKey, parseLexBound, h1, h2, h3, Bytes.str]

theorem window_eq_inDomain (start end_ : Bytes) (v : GoString) :
    ((match start with
        | none => LexBound.negInf
        | some s => LexBound.incl s).geMin v &&
      (match end_ with
        | none => LexBound.posInf
        | some s => LexBound.excl s).leMax v) = inDomain start end_ v := by
  cases start <;> cases end_ <;> simp [LexBound.geMin, LexBound.leMax, inDomain]

theorem index_of_find (st : Store) (h : ∀ s, st.find redisKeyIndex ≠ some (.str s)) :
    zmembers (st.find redisKeyIndex) = st.index := by
  unfold Store.index
  cases hf : st.find redisKeyIndex with
  | none => rfl
  | some v =>
    cases v with
    | str s => exact absurd hf (h s)
    | zset members => rfl

theorem index_of_string (st : Store) (s : GoString) (h : st.find redisKeyIndex = some (.str s)) :
    st.index = [] := by
  simp [Store.index, h]

theorem keySetFn_forward (st : Store) (start end_ : Bytes)
    (h : ∀ s, st.find redisKeyIndex ≠ some (.str s)) (offset : Nat) :
    keySetFn (storeClient st) start end_ false offset =
      .ok (((st.index.filter (inDomain start end_)).drop offset).take dbBufferLimit) := by
  simp only [keySetFn, storeClient, Store.zrangeByLex, parse_lowKey, parse_highKey,
    window_eq_inDomain, ← index_of_find st h]
  cases hf : st.find redisKeyIndex with
  | none => rfl
  | some v =>
    cases v with
    | str s => exact absurd hf (h s)
    | zset members => rfl

theorem keySetFn_reverse (st : Store) (start end_ : Bytes)
    (h : ∀ s, st.find redisKeyIndex ≠ some (.str s)) (offset : Nat) :
    keySetFn (storeClient st) start end_ true offset =
      .ok ((((st.index.filter (inDomain start end_)).reverse).drop offset).take dbBufferLimit) := by
  simp only [keySetFn, storeClient, Store.zrevrangeByLex, parse_lowKey, parse_highKey,
    window_eq_inDomain, ← index_of_find st h]
  cases hf : st.find redisKeyIndex with
  | none => rfl
  | some v =>
    cases v with
    | str s => exact absurd hf (h s)
    | zset members => rfl

theorem keySetFn_wrong_type (st : Store) (start end_ : Bytes) (isReverse : Bool) (s : GoString)
    (h : st.find redisKeyIndex = some (.str s)) (offset : Nat) :
    keySetFn (storeClient st) start end_ isReverse offset = .error errWrongType := by
  cases isReverse <;>
    simp [keySetFn, storeClient, Store.zrangeByLex, Store.zrevrangeByLex, parse_lowKey,
      parse_highKey, h]

/-- When the index key holds a string every page query fails: the producer
ends at once and the iterator starts exhausted. -/
theorem newRedisDBIterator_wrong_type (st : Store) (start end_ : Bytes) (isReverse : Bool)
    (s : GoString) (h : st.find redisKeyIndex = some (.str s)) (fuel : Nat) (hfuel : 0 < fuel) :
    newRedisDBIterator (storeClient st) start end_ isReverse fuel =
      .ret ({ start := start, end_ := end_, buff := [], item := none, isInvalid := false },
        none) := by
  cases fuel with
  | zero => exact absurd hfuel (Nat.lt_irrefl _)
  | succ n =>
    simp [newRedisDBIterator, producerLoop, keySetFn_wrong_type st start end_ isReverse s h]

theorem sendPage_present (st : Store) (keys : List GoString)
    (h : ∀ k ∈ keys, (st.get k).isSome = true) :
    sendPage keys (keys.map st.get) = (keys.map (pairOf st), true) := by
  induction keys with
  | nil => simp [sendPage]
  | cons k ks ih =>
    have hk : (st.get k).isSome = true := h k (by simp)
    have hks : ∀ x ∈ ks, (st.get x).isSome = true := fun x hx => h x (by simp [hx])
    obtain ⟨v, hv⟩ := Option.isSome_iff_exists.1 hk
    simp [sendPage, hv, ih hks, pairOf]

/-- Paging through a list `L` with a positive page size delivers `L` from the
current offset on and ends on the first empty page. -/
theorem producerLoop_pages (st : Store) (L : List GoString) (p : Nat) (hp : 0 < p)
    (hL : ∀ k ∈ L, (st.get k).isSome = true)
    (fetch : Nat → Except RedisError (List GoString))
    (hfetch : ∀ o, fetch o = .ok ((L.drop o).take p)) :
    ∀ (fuel offset : Nat), L.length - offset < fuel →
      producerLoop fetch (storeClient st).MGet fuel offset =
        some ((L.drop offset).map (pairOf st), ProducerEnd.emptyPage) := by
  intro fuel
  induction fuel with
  | zero => intro offset h; exact absurd h (Nat.not_lt_zero _)
  | succ n ih =>
    intro offset h
    by_cases hoff : L.length ≤ offset
    · have hd : L.drop offset = [] := List.drop_eq_nil_of_le hoff
      simp [producerLoop, hfetch, hd]
    · have hoff2 : offset < L.length := Nat.lt_of_not_le hoff
      have hlen : ((L.drop offset).take p).length = min p (L.length - offset) := by
        simp [List.length_take, List.length_drop]
      have hpos : 0 < ((L.drop offset).take p).length := by
        rw [hlen]; exact Nat.lt_min.2 ⟨hp, Nat.sub_pos_of_lt hoff2⟩
      have hne : ¬ ((L.drop offset).take p).length = 0 := Nat.pos_iff_ne_zero.1 hpos
      have hmem : ∀ k ∈ (L.drop offset).take p, (st.get k).isSome = true := fun k hk =>
        hL k (List.mem_of_mem_drop (List.mem_of_mem_take hk))
      have hsend := sendPage_present st _ hmem
      have hrec := ih (offset + ((L.drop offset).take p).length) (by rw [hlen]; omega)
      have hsplit : (L.drop offset).take p ++ L.drop (offset + ((L.drop offset).take p).length)
          = L.drop offset := by
        have := List.take_append_drop p (L.drop offset)
        rw [List.drop_drop] at this
        rw [hlen]
        by_cases hle : p ≤ L.length - offset
        · rw [Nat.min_eq_left hle]; exact this
        · have hge : L.length - offset < p := Nat.lt_of_not_le hle
          rw [Nat.min_eq_right (Nat.le_of_lt hge)]
          have h1 : L.drop (offset + (L.length - offset)) = [] :=
            List.drop_eq_nil_of_le (by omega)
          have h2 : (L.drop offset).take p = L.drop offset :=
            List.take_of_length_le (by simp [List.length_drop]; omega)
          rw [h1, h2, List.append_nil]
      simp only [producerLoop, hfetch, hne, if_false, storeClient] at hrec ⊢
      simp only [storeClient] at hsend
      rw [hsend]
      simp only [List.length_map]
      rw [hrec]
      simp only [← List.map_append, hsplit]

theorem next_primed (s e : Bytes) (i : kvItem) (rest : List kvItem) :
    redisDBIterator.Next { start := s, end_ := e, buff := rest, item := some i, isInvalid := false } =
      .ret { start := s, end_ := e, buff := rest.tail, item := rest.head?, isInvalid := false } := by
  cases rest <;>
    simp [redisDBIterator.Next, redisDBIterator.assertIsValid, redisDBIterator.Valid,
      redisDBIterator.Error]

/-- The consumer loop reads every pair the producer sent, in order. -/
theorem scan_all (s e : Bytes) :
    ∀ (items : List kvItem) (fuel : Nat), items.length < fuel →
      scan fuel { start := s, end_ := e, buff := items.tail, item := items.head?,
                  isInvalid := false } =
        .ret (items.map (fun i => (i.key, i.val)),
          { start := s, end_ := e, buff := [], item := none, isInvalid := false }) := by
  intro items
  induction items with
  | nil =>
    intro fuel h
    cases fuel with
    | zero => exact absurd h (Nat.not_lt_zero _)
    | succ n => simp [scan, redisDBIterator.Valid, redisDBIterator.Error]
  | cons i rest ih =>
    intro fuel h
    cases fuel with
    | zero => exact absurd h (Nat.not_lt_zero _)
    | succ n =>
      have hrec := ih n (by simpa using h)
      have hnext := next_primed s e i rest
      simp only [List.tail_cons, List.head?_cons] at hnext ⊢
      simp [scan, redisDBIterator.Valid, redisDBIterator.Error, redisDBIterator.Key,
        redisDBIterator.Value, redisDBIterator.assertIsValid, hnext, hrec]

theorem keyLess_irrefl : ∀ k : GoString, keyLess k k = false := by
  intro k
  induction k with
  | nil => rfl
  | cons a as ih => simp [keyLess, ih]

theorem bounds_accepted (start end_ : Bytes) (hs : start = none ∨ 0 < start.len)
    (he : end_ = none ∨ 0 < end_.len) :
    ¬ ((start ≠ none ∧ start.len = 0) ∨ (end_ ≠ none ∧ end_.len = 0)) := by
  rintro (⟨h1, h2⟩ | ⟨h1, h2⟩)
  · rcases hs with h | h
    · exact h1 h
    · omega
  · rcases he with h | h
    · exact h1 h
    · omega

theorem Iterator_reliable (st : Store) (start end_ : Bytes)
    (hprim : ∀ k ∈ st.index, (st.get k).isSome = true)
    (hs : start = none ∨ 0 < start.len) (he : end_ = none ∨ 0 < end_.len)
    (fuel : Nat) (hfuel : st.index.length < fuel) :
    RedisDB.Iterator { db := st } storeClient start end_ fuel =
      .ret (some { start := start, end_ := end_,
                   buff := ((st.index.filter (inDomain start end_)).map (pairOf st)).tail,
                   item := ((st.index.filter (inDomain start end_)).map (pairOf st)).head?,
                   isInvalid := false }, none) := by
  by_cases hstr : ∃ s, st.find redisKeyIndex = some (.str s)
  · obtain ⟨s, h⟩ := hstr
    have hw := newRedisDBIterator_wrong_type st start end_ false s h fuel
      (Nat.lt_of_le_of_lt (Nat.zero_le _) hfuel)
    simp only [RedisDB.Iterator, if_neg (bounds_accepted start end_ hs he), hw,
      index_of_string st s h]
    rfl
  · have hno : ∀ s, st.find redisKeyIndex ≠ some (.str s) := fun s e => hstr ⟨s, e⟩
    have hL : ∀ k ∈ st.index.filter (inDomain start end_), (st.get k).isSome = true :=
      fun k hk => hprim k (List.mem_of_mem_filter hk)
    have hlen : (st.index.filter (inDomain start end_)).length - 0 < fuel :=
      Nat.lt_of_le_of_lt (Nat.le_trans (Nat.sub_le _ _) (List.length_filter_le _ _)) hfuel
    have hp := producerLoop_pages st _ dbBufferLimit (by decide) hL
      (keySetFn (storeClient st) start end_ false) (keySetFn_forward st start end_ hno) fuel 0 hlen
    simp only [RedisDB.Iterator, if_neg (bounds_accepted start end_ hs he), newRedisDBIterator, hp,
      List.drop_zero]

theorem ReverseIterator_reliable (st : Store) (start end_ : Bytes)
    (hprim : ∀ k ∈ st.index, (st.get k).isSome = true)
    (hs : start = none ∨ 0 < start.len) (he : end_ = none ∨ 0 < end_.len)
    (fuel : Nat) (hfuel : st.index.length < fuel) :
    RedisDB.ReverseIterator { db := st } storeClient start end_ fuel =
      .ret (some { start := start, end_ := end_,
                   buff := (((st.index.filter (inDomain start end_)).reverse).map (pairOf st)).tail,
                   item := (((st.index.filter (inDomain start end_)).reverse).map (pairOf st)).head?,
                   isInvalid := false }, none) := by
  by_cases hstr : ∃ s, st.find redisKeyIndex = some (.str s)
  · obtain ⟨s, h⟩ := hstr
    have hw := newRedisDBIterator_wrong_type st start end_ true s h fuel
      (Nat.lt_of_le_of_lt (Nat.zero_le _) hfuel)
    simp only [RedisDB.ReverseIterator, if_neg (bounds_accepted start end_ hs he), hw,
      index_of_string st s h]
    rfl
  · have hno : ∀ s, st.find redisKeyIndex ≠ some (.str s) := fun s e => hstr ⟨s, e⟩
    have hL : ∀ k ∈ (st.index.filter (inDomain start end_)).reverse, (st.get k).isSome = true :=
      fun k hk => hprim k (List.mem_of_mem_filter (List.mem_reverse.1 hk))
    have hlen : ((st.index.filter (inDomain start end_)).reverse).length - 0 < fuel := by
      rw [List.length_reverse]
      exact Nat.lt_of_le_of_lt (Nat.le_trans (Nat.sub_le _ _) (List.length_filter_le _ _)) hfuel
    have hp := producerLoop_pages st _ dbBufferLimit (by decide) hL
      (keySetFn (storeClient st) start end_ true) (keySetFn_reverse st start end_ hno) fuel 0 hlen
    simp only [RedisDB.ReverseIterator, if_neg (bounds_accepted start end_ hs he),
      newRedisDBIterator, hp, List.drop_zero]

/-- C1: over a store whose index is an ascending duplicate-free list of keys
that all have a primary value, and for bounds that are each nil or non-empty,
`Iterator(start, end)` driven through `Valid`/`Key`/`Value`/`Next` until
`Valid()` is false delivers exactly the index keys `k` with
`start <= k < end` in ascending order, each once and with its primary value,
`ReverseIterator(start, end)` delivers the same pairs in descending order,
for any number of keys, and `start == end` delivers nothing. One more page
than there are keys is always enough for the producer to finish. -/
theorem iterator_delivers_domain_in_order (st : Store) (start end_ : Bytes)
    (hsorted : st.index.Pairwise (fun a b => keyLess a b = true))
    (hprim : ∀ k ∈ st.index, (st.get k).isSome = true)
    (hs : start = none ∨ 0 < start.len) (he : end_ = none ∨ 0 < end_.len)
    (fuel : Nat) (hfuel : st.index.length < fuel) :
    ∃ (fwd rev fend rend : redisDBIterator) (out back : List (GoString × GoString)),
      RedisDB.Iterator { db := st } storeClient start end_ fuel = .ret (some fwd, none) ∧
      scan fuel fwd = .ret (out, fend) ∧ fend.Valid.1 = false ∧
      RedisDB.ReverseIterator { db := st } storeClient start end_ fuel = .ret (some rev, none) ∧
      scan fuel rev = .ret (back, rend) ∧ rend.Valid.1 = false ∧
      out.map Prod.fst = st.index.filter (inDomain start end_) ∧
      (∀ k, k ∈ out.map Prod.fst ↔ k ∈ st.index ∧ inDomain start end_ k = true) ∧
      (∀ p ∈ out, st.get p.1 = some p.2) ∧
      (out.map Prod.fst).Pairwise (fun a b => keyLess a b = true) ∧
      (out.map Prod.fst).Nodup ∧
      back = out.reverse ∧
      (back.map Prod.fst).Pairwise (fun a b => keyLess b a = true) ∧
      (start ≠ none → start = end_ → out = []) := by
  have hF := Iterator_reliable st start end_ hprim hs he fuel hfuel
  have hR := ReverseIterator_reliable st start end_ hprim hs he fuel hfuel
  have hlenF : ((st.index.filter (inDomain start end_)).map (pairOf st)).length < fuel := by
    rw [List.length_map]
    exact Nat.lt_of_le_of_lt (List.length_filter_le _ _) hfuel
  have hlenR : (((st.index.filter (inDomain start end_)).reverse).map (pairOf st)).length < fuel := by
    rw [List.length_map, List.length_reverse]
    exact Nat.lt_of_le_of_lt (List.length_filter_le _ _) hfuel
  have hsF := scan_all start end_ _ fuel hlenF
  have hsR := scan_all start end_ _ fuel hlenR
  have hkeys : (((st.index.filter (inDomain start end_)).map (pairOf st)).map
      (fun i => (i.key, i.val))).map Prod.fst = st.index.filter (inDomain start end_) := by
    simp [List.map_map, Function.comp_def, pairOf]
  have hasc : (st.index.filter (inDomain start end_)).Pairwise (fun a b => keyLess a b = true) :=
    hsorted.sublist (List.filter_sublist _)
  refine ⟨_, _, _, _, _, _, hF, hsF, ?_, hR, hsR, ?_, hkeys, ?_, ?_, ?_, ?_, ?_, ?_, ?_⟩
  · simp [redisDBIterator.Valid, redisDBIterator.Error]
  · simp [redisDBIterator.Valid, redisDBIterator.Error]
  · intro k
    rw [hkeys, List.mem_filter]
  · intro p hp
    simp only [List.mem_map] at hp
    obtain ⟨i, ⟨k, hk, rfl⟩, rfl⟩ := hp
    obtain ⟨v, hv⟩ := Option.isSome_iff_exists.1 (hprim k (List.mem_of_mem_filter hk))
    simp [pairOf, hv]
  · rw [hkeys]; exact hasc
  · rw [hkeys]
    have hne : (st.index.filter (inDomain start end_)).Pairwise (fun a b => a ≠ b) := by
      refine hasc.imp ?_
      intro a b hab e
      subst e
      rw [keyLess_irrefl] at hab
      exact Bool.noConfusion hab
    exact hne
  · simp [List.map_reverse]
  · have : ((((st.index.filter (inDomain start end_)).reverse).map (pairOf st)).map
        (fun i => (i.key, i.val))).map Prod.fst = (st.index.filter (inDomain start end_)).reverse := by
      simp [List.map_map, Function.comp_def, pairOf]
    rw [this, List.pairwise_reverse]
    exact hasc
  · intro hne heq
    have hempty : st.index.filter (inDomain start end_) = [] := by
      rw [List.filter_eq_nil_iff]
      intro k _
      subst heq
      cases start with
      | none => exact absurd rfl hne
      | some s => cases h : keyLess k s <;> simp [inDomain, h]
    simp [hempty]

/-- Witness for C1: the keys "a".."d" with the domain ["b", "d"). -/
theorem iterator_delivers_domain_in_order_witness :
    ∃ (fwd rev fend rend : redisDBIterator) (out back : List (GoString × GoString)),
      RedisDB.Iterator { db := abcdStore } storeClient (some [98]) (some [100]) 5 =
        .ret (some fwd, none) ∧
      scan 5 fwd = .ret (out, fend) ∧ fend.Valid.1 = false ∧
      RedisDB.ReverseIterator { db := abcdStore } storeClient (some [98]) (some [100]) 5 =
        .ret (some rev, none) ∧
      scan 5 rev = .ret (back, rend) ∧ rend.Valid.1 = false ∧
      out.map Prod.fst = abcdStore.index.filter (inDomain (some [98]) (some [100])) ∧
      (∀ k, k ∈ out.map Prod.fst ↔
        k ∈ abcdStore.index ∧ inDomain (some [98]) (some [100]) k = true) ∧
      (∀ p ∈ out, abcdStore.get p.1 = some p.2) ∧
      (out.map Prod.fst).Pairwise (fun a b => keyLess a b = true) ∧
      (out.map Prod.fst).Nodup ∧
      back = out.reverse ∧
      (back.map Prod.fst).Pairwise (fun a b => keyLess b a = true) ∧
      ((some [98] : Bytes) ≠ none → (some [98] : Bytes) = some [100] → out = []) :=
  iterator_delivers_domain_in_order abcdStore (some [98]) (some [100]) (by decide) (by decide)
    (Or.inr (by decide)) (Or.inr (by decide)) 5 (by decide)

/-! ## Iterator life cycle -/

theorem runOps_cons_ret (op : IterOp) (ops : List IterOp) (itr last : redisDBIterator)
    (obs : List IterObs) (h : runOps (op :: ops) itr = .ret (obs, last)) :
    ∃ o itr1 os, op.call itr = .ret (o, itr1) ∧ runOps ops itr1 = .ret (os, last) ∧
      obs = o :: os := by
  simp only [runOps] at h
  cases hc : op.call itr with
  | ret r =>
    obtain ⟨o, itr1⟩ := r
    rw [hc] at h
    simp only at h
    cases hr : runOps ops itr1 with
    | ret q =>
      obtain ⟨os, l⟩ := q
      rw [hr] at h
      simp only [Run.ret.injEq, Prod.mk.injEq] at h
      exact ⟨o, itr1, os, rfl, by rw [← h.2]; exact hr, h.1.symm⟩
    | panic => rw [hr] at h; cases h
    | outOfFuel => rw [hr] at h; cases h
  | panic => rw [hc] at h; cases h
  | outOfFuel => rw [hc] at h; cases h

/-- A call that returns on an iterator whose `Valid()` is false leaves
`Valid()` false, and if the call was `Valid()` it returned false. -/
theorem call_keeps_invalid (op : IterOp) (itr itr1 : redisDBIterator) (o : IterObs)
    (hdead : itr.Valid.1 = false) (h : op.call itr = .ret (o, itr1)) :
    itr1.Valid.1 = false ∧ ∀ b, o = .valid b → b = false := by
  cases op with
  | Valid =>
    simp only [IterOp.call, Run.ret.injEq, Prod.mk.injEq] at h
    obtain ⟨ho, hi⟩ := h
    subst ho
    refine ⟨?_, ?_⟩
    · rw [← hi]
      revert hdead
      simp only [redisDBIterator.Valid, redisDBIterator.Error]
      split <;> simp_all
    · intro b hb
      simp only [IterObs.valid.injEq] at hb
      rw [← hb]; exact hdead
  | Key =>
    simp [IterOp.call, redisDBIterator.Key, redisDBIterator.assertIsValid, hdead] at h
  | Value =>
    simp [IterOp.call, redisDBIterator.Value, redisDBIterator.assertIsValid, hdead] at h
  | Next =>
    simp [IterOp.call, redisDBIterator.Next, redisDBIterator.assertIsValid, hdead] at h
  | Error =>
    simp only [IterOp.call, Run.ret.injEq, Prod.mk.injEq] at h
    obtain ⟨ho, hi⟩ := h
    subst ho; subst hi
    exact ⟨hdead, fun b hb => by cases hb⟩
  | Domain =>
    simp only [IterOp.call, Run.ret.injEq, Prod.mk.injEq] at h
    obtain ⟨ho, hi⟩ := h
    subst ho; subst hi
    exact ⟨hdead, fun b hb => by cases hb⟩
  | Close =>
    simp only [IterOp.call, Run.ret.injEq, Prod.mk.injEq] at h
    obtain ⟨ho, hi⟩ := h
    subst ho; subst hi
    refine ⟨?_, fun b hb => by cases hb⟩
    simp only [redisDBIterator.Close, redisDBIterator.Valid, redisDBIterator.Error]
    split <;> simp

theorem runOps_keeps_invalid (ops : List IterOp) :
    ∀ (itr last : redisDBIterator) (obs : List IterObs), itr.Valid.1 = false →
      runOps ops itr = .ret (obs, last) →
      (∀ b ∈ validResults obs, b = false) ∧ last.Valid.1 = false := by
  induction ops with
  | nil =>
    intro itr last obs hdead h
    simp only [runOps, Run.ret.injEq, Prod.mk.injEq] at h
    obtain ⟨ho, hl⟩ := h
    subst ho; subst hl
    exact ⟨by simp [validResults], hdead⟩
  | cons op ops ih =>
    intro itr last obs hdead h
    obtain ⟨o, itr1, os, hc, hr, rfl⟩ := runOps_cons_ret op ops itr last obs h
    obtain ⟨hd1, hv⟩ := call_keeps_invalid op itr itr1 o hdead hc
    obtain ⟨hall, hlast⟩ := ih itr1 last os hd1 hr
    refine ⟨?_, hlast⟩
    intro b hb
    cases o with
    | valid b0 =>
      simp only [validResults, List.mem_cons] at hb
      rcases hb with e | e
      · rw [e]; exact hv b0 rfl
      · exact hall b e
    | bytes k => exact hall b (by simpa [validResults] using hb)
    | err e => exact hall b (by simpa [validResults] using hb)
    | domain d => exact hall b (by simpa [validResults] using hb)
    | unit => exact hall b (by simpa [validResults] using hb)

theorem valid_false_state (itr : redisDBIterator) (h : itr.Valid.1 = false) :
    itr.Valid.2.Valid.1 = false := by
  revert h
  simp only [redisDBIterator.Valid, redisDBIterator.Error]
  split <;> simp_all

theorem close_state_invalid (itr : redisDBIterator) : itr.Close.2.Valid.1 = false := by
  simp only [redisDBIterator.Close, redisDBIterator.Valid, redisDBIterator.Error]
  split <;> simp

/-- C7: in every sequence of iterator calls that does not abort, once a
`Valid()` call has returned false every later `Valid()` call returns false,
and after a false `Valid()` or a `Close()` the iterator ends invalid: the
cursor is not filled again. -/
theorem valid_false_stays_false (ops : List IterOp) :
    ∀ (itr last : redisDBIterator) (obs : List IterObs),
      runOps ops itr = .ret (obs, last) →
      (validResults obs).Pairwise (fun a b => a = false → b = false) ∧
      ((false ∈ validResults obs ∨ IterOp.Close ∈ ops) → last.Valid.1 = false) := by
  induction ops with
  | nil =>
    intro itr last obs h
    simp only [runOps, Run.ret.injEq, Prod.mk.injEq] at h
    obtain ⟨ho, _⟩ := h
    subst ho
    simp [validResults]
  | cons op ops ih =>
    intro itr last obs h
    obtain ⟨o, itr1, os, hc, hr, rfl⟩ := runOps_cons_ret op ops itr last obs h
    obtain ⟨hpw, hfin⟩ := ih itr1 last os hr
    have hclose : op = IterOp.Close → last.Valid.1 = false := by
      intro e
      subst e
      simp only [IterOp.call, Run.ret.injEq, Prod.mk.injEq] at hc
      obtain ⟨_, hi⟩ := hc
      subst hi
      exact (runOps_keeps_invalid ops _ last os (close_state_invalid itr) hr).2
    cases o with
    | valid b0 =>
      have hop : b0 = false → (∀ b ∈ validResults os, b = false) ∧ last.Valid.1 = false := by
        intro hb0
        cases op <;> simp only [IterOp.call] at hc
        case Valid =>
          simp only [Run.ret.injEq, Prod.mk.injEq, IterObs.valid.injEq] at hc
          obtain ⟨hv, hi⟩ := hc
          subst hi
          exact runOps_keeps_invalid ops _ last os (valid_false_state itr (hv.trans hb0)) hr
        all_goals first | (split at hc <;> simp at hc) | simp at hc
      refine ⟨?_, ?_⟩
      · simp only [validResults, List.pairwise_cons]
        exact ⟨fun b hb hb0 => (hop hb0).1 b hb, hpw⟩
      · rintro (hm | hm)
        · simp only [validResults, List.mem_cons] at hm
          rcases hm with e | e
          · exact (hop e.symm).2
          · exact hfin (Or.inl e)
        · rcases List.mem_cons.1 hm with e | e
          · exact hclose e.symm
          · exact hfin (Or.inr e)
    | bytes k =>
      refine ⟨by simpa [validResults] using hpw, ?_⟩
      rintro (hm | hm)
      · exact hfin (Or.inl (by simpa [validResults] using hm))
      · rcases List.mem_cons.1 hm with e | e
        · exact hclose e.symm
        · exact hfin (Or.inr e)
    | err e0 =>
      refine ⟨by simpa [validResults] using hpw, ?_⟩
      rintro (hm | hm)
      · exact hfin (Or.inl (by simpa [validResults] using hm))
      · rcases List.mem_cons.1 hm with e | e
        · exact hclose e.symm
        · exact hfin (Or.inr e)
    | domain d =>
      refine ⟨by simpa [validResults] using hpw, ?_⟩
      rintro (hm | hm)
      · exact hfin (Or.inl (by simpa [validResults] using hm))
      · rcases List.mem_cons.1 hm with e | e
        · exact hclose e.symm
        · exact hfin (Or.inr e)
    | unit =>
      refine ⟨by simpa [validResults] using hpw, ?_⟩
      rintro (hm | hm)
      · exact hfin (Or.inl (by simpa [validResults] using hm))
      · rcases List.mem_cons.1 hm with e | e
        · exact hclose e.symm
        · exact hfin (Or.inr e)

/-! ## Writes, batches and validation -/

/-- C2 (evaluation at the failing input): from the empty store, a successful
`Set("a", "1")` followed by a successful `Delete("__index__")` leaves "a"
with its primary entry and outside the index: `DEL` of the key under which the
sorted set is held removed the whole set, and an iterator over everything
delivers nothing. -/
theorem delete_of_index_key_drops_index :
    emptyDB.Set none (some [97]) (some [49]) =
      (none, { db := { keys := [(redisKeyIndex, .zset [[97]]), ([97], .str [49])] } }) ∧
    RedisDB.Delete { db := { keys := [(redisKeyIndex, .zset [[97]]), ([97], .str [49])] } } none
        (some redisKeyIndex) =
      (none, { db := { keys := [([97], .str [49])] } }) ∧
    RedisDB.Get { db := { keys := [([97], .str [49])] } } none (some [97]) = (some [49], none) ∧
    RedisDB.Has { db := { keys := [([97], .str [49])] } } none (some [97]) = (true, none) ∧
    (Store.mk [([97], .str [49])]).get [97] = some [49] ∧
    (Store.mk [([97], .str [49])]).index = [] ∧
    RedisDB.Iterator { db := { keys := [([97], .str [49])] } } storeClient none none 1 =
      .ret (some { start := none, end_ := none, buff := [], item := none, isInvalid := false },
        none) := by
  decide

/-- A batch holding a `Delete` is never committed: the `redis.Z` struct given
to `ZRem` cannot be encoded, `Write` returns the client's error, nothing
reaches the server and the batch stays open. -/
theorem batch_delete_is_not_written :
    newRedisDBBatch.Delete (some [97]) =
      .ret (none, { batch := some [.ZRem redisKeyIndex (.z { Score := 0, Member := [97] }),
                                   .Del [97]] }) ∧
    (redisDBBatch.mk (some [.ZRem redisKeyIndex (.z { Score := 0, Member := [97] }),
        .Del [97]])).Write { db := abcdStore } none =
      (some (.redis errMarshal), { batch := some [] }, { db := abcdStore }) := by
  decide

/-- C3 (evaluation at the failing input): on a closed batch `Set` and
`Delete` with a non-empty key panic on the `nil` pipeline instead of
returning `errBatchClosed`; `Write` and `WriteSync` do return it. -/
theorem set_after_close_panics :
    redisDBBatch.Set newRedisDBBatch.Close.2 (some [97]) (some [49]) = .panic ∧
    redisDBBatch.Delete newRedisDBBatch.Close.2 (some [97]) = .panic ∧
    redisDBBatch.Write newRedisDBBatch.Close.2 emptyDB none =
      (some .errBatchClosed, newRedisDBBatch.Close.2, emptyDB) ∧
    redisDBBatch.WriteSync newRedisDBBatch.Close.2 emptyDB none =
      (some .errBatchClosed, newRedisDBBatch.Close.2, emptyDB) := by
  decide

/-- C4 (counterexample): an open batch with a `Set` queued whose commit
fails: `Write` returns the commit error and leaves the batch open, and the
following `Write` and `WriteSync` return nil, not `errBatchClosed`. -/
theorem failed_write_leaves_batch_open :
    newRedisDBBatch.Set (some [97]) (some [49]) =
      .ret (none, { batch := some [.ZAdd redisKeyIndex { Score := 0, Member := [97] },
                                   .Set [97] [49]] }) ∧
    (redisDBBatch.mk (some [.ZAdd redisKeyIndex { Score := 0, Member := [97] },
        .Set [97] [49]])).Write emptyDB (some { code := 7 }) =
      (some (.redis { code := 7 }), { batch := some [] }, emptyDB) ∧
    (redisDBBatch.mk (some [])).Write emptyDB none = (none, { batch := none }, emptyDB) ∧
    (redisDBBatch.mk (some [])).WriteSync emptyDB none = (none, { batch := none }, emptyDB) := by
  decide

theorem write_of_closed (db : RedisDB) (fault : Option RedisError) (sync : Bool) :
    (redisDBBatch.mk none).write db fault sync = (some .errBatchClosed, { batch := none }, db) := by
  simp [redisDBBatch.write]

theorem write_without_error (q : List Cmd) (db : RedisDB) (fault : Option RedisError)
    (sync : Bool) (h : ((redisDBBatch.mk (some q)).write db fault sync).1 = none) :
    ((redisDBBatch.mk (some q)).write db fault sync).2.1 = { batch := none } := by
  simp only [redisDBBatch.write] at h ⊢
  cases hr : (db.db.roundTrip fault q).1 with
  | none => simp [hr, redisDBBatch.Close]
  | some e => simp [hr] at h

theorem write_with_error (q : List Cmd) (db : RedisDB) (fault : Option RedisError)
    (sync : Bool) (h : ((redisDBBatch.mk (some q)).write db fault sync).1 ≠ none) :
    ((redisDBBatch.mk (some q)).write db fault sync).2.1.batch ≠ none := by
  simp only [redisDBBatch.write] at h ⊢
  cases hr : (db.db.roundTrip fault q).1 with
  | none => simp [hr, redisDBBatch.Close] at h
  | some e => simp [hr]

/-- C4 (amended): for every open batch, when `Write` or `WriteSync` returns
without error the batch is closed, so that every following `Write` or
`WriteSync` returns `errBatchClosed` and changes neither the batch nor the
store; when `Write` or `WriteSync` returns an error the batch is left open. -/
theorem write_closes_batch_on_success (q : List Cmd) (db : RedisDB)
    (fault next : Option RedisError) :
    (((redisDBBatch.mk (some q)).Write db fault).1 = none →
      ((redisDBBatch.mk (some q)).Write db fault).2.1 = { batch := none } ∧
      ((redisDBBatch.mk (some q)).Write db fault).2.1.Write
          ((redisDBBatch.mk (some q)).Write db fault).2.2 next =
        (some .errBatchClosed, { batch := none },
          ((redisDBBatch.mk (some q)).Write db fault).2.2) ∧
      ((redisDBBatch.mk (some q)).Write db fault).2.1.WriteSync
          ((redisDBBatch.mk (some q)).Write db fault).2.2 next =
        (some .errBatchClosed, { batch := none },
          ((redisDBBatch.mk (some q)).Write db fault).2.2)) ∧
    (((redisDBBatch.mk (some q)).WriteSync db fault).1 = none →
      ((redisDBBatch.mk (some q)).WriteSync db fault).2.1 = { batch := none } ∧
      ((redisDBBatch.mk (some q)).WriteSync db fault).2.1.Write
          ((redisDBBatch.mk (some q)).WriteSync db fault).2.2 next =
        (some .errBatchClosed, { batch := none },
          ((redisDBBatch.mk (some q)).WriteSync db fault).2.2) ∧
      ((redisDBBatch.mk (some q)).WriteSync db fault).2.1.WriteSync
          ((redisDBBatch.mk (some q)).WriteSync db fault).2.2 next =
        (some .errBatchClosed, { batch := none },
          ((redisDBBatch.mk (some q)).WriteSync db fault).2.2)) ∧
    (((redisDBBatch.mk (some q)).Write db fault).1 ≠ none →
      ((redisDBBatch.mk (some q)).Write db fault).2.1.batch ≠ none) ∧
    (((redisDBBatch.mk (some q)).WriteSync db fault).1 ≠ none →
      ((redisDBBatch.mk (some q)).WriteSync db fault).2.1.batch ≠ none) := by
  refine ⟨?_, ?_, ?_, ?_⟩
  · intro h
    have hc := write_without_error q db fault false h
    simp only [redisDBBatch.Write, redisDBBatch.WriteSync] at hc ⊢
    rw [hc]
    exact ⟨rfl, write_of_closed _ next false, write_of_closed _ next true⟩
  · intro h
    have hc := write_without_error q db fault true h
    simp only [redisDBBatch.Write, redisDBBatch.WriteSync] at hc ⊢
    rw [hc]
    exact ⟨rfl, write_of_closed _ next false, write_of_closed _ next true⟩
  · exact write_with_error q db fault false
  · exact write_with_error q db fault true

/-- Witness for C4: a batch with a `Set` queued is written without error on
the empty store, after which `Write` and `WriteSync` return `errBatchClosed`
and leave the store as the first `Write` left it. -/
theorem write_closes_batch_on_success_witness :
    (redisDBBatch.mk (some [.ZAdd redisKeyIndex { Score := 0, Member := [97] },
        .Set [97] [49]])).Write emptyDB none =
      (none, { batch := none },
        { db := { keys := [([97], .str [49]), (redisKeyIndex, .zset [[97]])] } }) ∧
    ((redisDBBatch.mk (some [.ZAdd redisKeyIndex { Score := 0, Member := [97] },
        .Set [97] [49]])).Write emptyDB none).2.1.Write
        ((redisDBBatch.mk (some [.ZAdd redisKeyIndex { Score := 0, Member := [97] },
          .Set [97] [49]])).Write emptyDB none).2.2 (some { code := 7 }) =
      (some .errBatchClosed, { batch := none },
        ((redisDBBatch.mk (some [.ZAdd redisKeyIndex { Score := 0, Member := [97] },
          .Set [97] [49]])).Write emptyDB none).2.2) :=
  ⟨by decide,
    ((write_closes_batch_on_success
      [.ZAdd redisKeyIndex { Score := 0, Member := [97] }, .Set [97] [49]] emptyDB none
      (some { code := 7 })).1 (by decide)).2.1⟩

theorem newRedisDBIterator_err (c : Client) (start end_ : Bytes) (isReverse : Bool) (fuel : Nat) :
    ∀ itr err, newRedisDBIterator c start end_ isReverse fuel = .ret (itr, err) → err = none := by
  intro itr err h
  simp only [newRedisDBIterator] at h
  split at h
  · cases h
  · cases h
  · simp only [Run.ret.injEq, Prod.mk.injEq] at h
    exact h.2.symm

/-- C5: a zero-length key (nil or empty) makes `Get`, `Has`, `Set`,
`SetSync`, `Delete`, `DeleteSync` and the batch's `Set` and `Delete` return
`errKeyEmpty` whatever the store, the connection and the batch are, leaving
store and batch as they were; `Iterator` and `ReverseIterator` return
`errKeyEmpty` and no iterator when a bound is non-nil and empty; and with
bounds that are each nil or non-empty neither returns `errKeyEmpty`. -/
theorem empty_key_rejected (key value : Bytes) (db : RedisDB) (fault : Option RedisError)
    (b : redisDBBatch) (link : Store → Client) (start end_ lo hi : Bytes) (fuel : Nat)
    (hkey : key.len = 0)
    (hbound : (start ≠ none ∧ start.len = 0) ∨ (end_ ≠ none ∧ end_.len = 0))
    (hlo : lo = none ∨ 0 < lo.len) (hhi : hi = none ∨ 0 < hi.len) :
    db.Get fault key = (none, some .errKeyEmpty) ∧
    db.Has fault key = (false, some .errKeyEmpty) ∧
    db.Set fault key value = (some .errKeyEmpty, db) ∧
    db.SetSync fault key value = (some .errKeyEmpty, db) ∧
    db.Delete fault key = (some .errKeyEmpty, db) ∧
    db.DeleteSync fault key = (some .errKeyEmpty, db) ∧
    b.Set key value = .ret (some .errKeyEmpty, b) ∧
    b.Delete key = .ret (some .errKeyEmpty, b) ∧
    db.Iterator link start end_ fuel = .ret (none, some .errKeyEmpty) ∧
    db.ReverseIterator link start end_ fuel = .ret (none, some .errKeyEmpty) ∧
    (∀ r, db.Iterator link lo hi fuel = .ret r → r.1.isSome = true ∧ r.2 = none) ∧
    (∀ r, db.ReverseIterator link lo hi fuel = .ret r → r.1.isSome = true ∧ r.2 = none) := by
  have hok := bounds_accepted lo hi hlo hhi
  refine ⟨?_, ?_, ?_, ?_, ?_, ?_, ?_, ?_, ?_, ?_, ?_, ?_⟩
  · simp [RedisDB.Get, hkey]
  · simp [RedisDB.Has, hkey]
  · simp [RedisDB.Set, RedisDB.SetSync, hkey]
  · simp [RedisDB.SetSync, hkey]
  · simp [RedisDB.Delete, RedisDB.DeleteSync, hkey]
  · simp [RedisDB.DeleteSync, hkey]
  · simp [redisDBBatch.Set, hkey]
  · simp [redisDBBatch.Delete, hkey]
  · simp only [RedisDB.Iterator, if_pos hbound]
  · simp only [RedisDB.ReverseIterator, if_pos hbound]
  · intro r hr
    simp only [RedisDB.Iterator, if_neg hok] at hr
    cases hx : newRedisDBIterator (link db.db) lo hi false fuel with
    | ret p =>
      rw [hx] at hr
      simp only [Run.ret.injEq] at hr
      subst hr
      exact ⟨rfl, newRedisDBIterator_err _ _ _ _ _ p.1 p.2 hx⟩
    | panic => rw [hx] at hr; cases hr
    | outOfFuel => rw [hx] at hr; cases hr
  · intro r hr
    simp only [RedisDB.ReverseIterator, if_neg hok] at hr
    cases hx : newRedisDBIterator (link db.db) lo hi true fuel with
    | ret p =>
      rw [hx] at hr
      simp only [Run.ret.injEq] at hr
      subst hr
      exact ⟨rfl, newRedisDBIterator_err _ _ _ _ _ p.1 p.2 hx⟩
    | panic => rw [hx] at hr; cases hr
    | outOfFuel => rw [hx] at hr; cases hr

/-- Witness for C5: the empty key and the empty lower bound on the empty store. -/
theorem empty_key_rejected_witness :
    emptyDB.Get none (some []) = (none, some .errKeyEmpty) ∧
    emptyDB.Has none (some []) = (false, some .errKeyEmpty) ∧
    emptyDB.Set none (some []) (some [49]) = (some .errKeyEmpty, emptyDB) ∧
    emptyDB.SetSync none (some []) (some [49]) = (some .errKeyEmpty, emptyDB) ∧
    emptyDB.Delete none (some []) = (some .errKeyEmpty, emptyDB) ∧
    emptyDB.DeleteSync none (some []) = (some .errKeyEmpty, emptyDB) ∧
    newRedisDBBatch.Set (some []) (some [49]) = .ret (some .errKeyEmpty, newRedisDBBatch) ∧
    newRedisDBBatch.Delete (some []) = .ret (some .errKeyEmpty, newRedisDBBatch) ∧
    emptyDB.Iterator storeClient (some []) none 1 = .ret (none, some .errKeyEmpty) ∧
    emptyDB.ReverseIterator storeClient (some []) none 1 = .ret (none, some .errKeyEmpty) ∧
    (∀ r, emptyDB.Iterator storeClient none (some [98]) 1 = .ret r →
      r.1.isSome = true ∧ r.2 = none) ∧
    (∀ r, emptyDB.ReverseIterator storeClient none (some [98]) 1 = .ret r →
      r.1.isSome = true ∧ r.2 = none) :=
  empty_key_rejected (some []) (some [49]) emptyDB none newRedisDBBatch storeClient (some []) none
    none (some [98]) 1 (by decide) (Or.inl (by decide)) (Or.inl rfl) (Or.inr (by decide))

/-- C6 (evaluation at the failing input): the batch's `Set` with a nil value
returns nil and queues `SET a ""` with its index entry, where `Set` and
`SetSync` of the facade return `errValueNil` and write nothing; a non-nil
empty value is written by the facade. -/
theorem batch_set_accepts_nil_value :
    newRedisDBBatch.Set (some [97]) none =
      .ret (none, { batch := some [.ZAdd redisKeyIndex { Score := 0, Member := [97] },
                                   .Set [97] []] }) ∧
    emptyDB.Set none (some [97]) none = (some .errValueNil, emptyDB) ∧
    emptyDB.SetSync none (some [97]) none = (some .errValueNil, emptyDB) ∧
    emptyDB.SetSync none (some [97]) (some []) =
      (none, { db := { keys := [(redisKeyIndex, .zset [[97]]), ([97], .str [])] } }) := by
  decide

/-- Witness for C7: the last pair is read, then the iterator is exhausted
and closed. -/
theorem valid_false_stays_false_witness :
    (validResults [.valid true, .bytes [97], .unit, .valid false, .valid false, .err none,
        .domain (none, none), .err none, .valid false]).Pairwise
      (fun a b => a = false → b = false) ∧
    ((false ∈ validResults [.valid true, .bytes [97], .unit, .valid false, .valid false,
        .err none, .domain (none, none), .err none, .valid false] ∨
      IterOp.Close ∈ [IterOp.Valid, .Key, .Next, .Valid, .Valid, .Error, .Domain, .Close, .Valid]) →
      (redisDBIterator.mk none none [] none false).Valid.1 = false) :=
  valid_false_stays_false [.Valid, .Key, .Next, .Valid, .Valid, .Error, .Domain, .Close, .Valid]
    lastPairIterator (redisDBIterator.mk none none [] none false)
    [.valid true, .bytes [97], .unit, .valid false, .valid false, .err none,
      .domain (none, none), .err none, .valid false] (by decide)

/-- C8 (evaluation at the failing input): over the keys "a".."d" the second
page query returns an error; the producer ends on that error, the consumer
reads the four pairs of the first page and then `Valid()` is false, and
`Error()` is nil before and after: the failure is not exposed. -/
theorem producer_error_not_exposed :
    producerLoop (keySetFn failingClient none none false) failingClient.MGet 2 0 =
      some ([⟨[97], [49]⟩, ⟨[98], [50]⟩, ⟨[99], [51]⟩, ⟨[100], [52]⟩],
        .queryError { code := 7 }) ∧
    newRedisDBIterator failingClient none none false 2 =
      .ret ({ start := none, end_ := none,
              buff := [⟨[98], [50]⟩, ⟨[99], [51]⟩, ⟨[100], [52]⟩],
              item := some ⟨[97], [49]⟩, isInvalid := false }, none) ∧
    scan 5 { start := none, end_ := none,
             buff := [⟨[98], [50]⟩, ⟨[99], [51]⟩, ⟨[100], [52]⟩],
             item := some ⟨[97], [49]⟩, isInvalid := false } =
      .ret ([([97], [49]), ([98], [50]), ([99], [51]), ([100], [52])],
        { start := none, end_ := none, buff := [], item := none, isInvalid := false }) ∧
    (redisDBIterator.mk none none [] none false).Valid.1 = false ∧
    (redisDBIterator.mk none none [⟨[98], [50]⟩, ⟨[99], [51]⟩, ⟨[100], [52]⟩]
      (some ⟨[97], [49]⟩) false).Error = none ∧
    (redisDBIterator.mk none none [] none false).Error = none := by
  decide

/-- Whenever production ended because a page query or a bulk lookup returned
an error, the iterator is returned without error, the consumer reads the
pairs queued before the failure and then `Valid()` is false, and `Error()`
is nil both before and after. -/
theorem producer_error_ends_sequence (c : Client) (start end_ : Bytes) (isReverse : Bool)
    (fuel : Nat) (items : List kvItem) (how : ProducerEnd) (e : RedisError)
    (hrun : producerLoop (keySetFn c start end_ isReverse) c.MGet fuel 0 = some (items, how))
    (hhow : how = .queryError e ∨ how = .lookupError e) :
    ∃ itr last, newRedisDBIterator c start end_ isReverse fuel = .ret (itr, none) ∧
      scan (items.length + 1) itr = .ret (items.map (fun i => (i.key, i.val)), last) ∧
      last.Valid.1 = false ∧ itr.Error = none ∧ last.Error = none := by
  refine ⟨_, _, ?_, scan_all start end_ items (items.length + 1) (Nat.lt_succ_self _), ?_, rfl, rfl⟩
  · rcases hhow with h | h <;> subst h <;> simp [newRedisDBIterator, hrun]
  · simp [redisDBIterator.Valid, redisDBIterator.Error]

/-- C10 (evaluation at the failing input): with "a" in the index and no
primary entry for it, the bulk lookup holds nil for "a", building the pair
panics and the program aborts. -/
theorem producer_panics_on_absent_value :
    danglingStore.get [97] = none ∧
    sendPage [[97]] [none] = ([], false) ∧
    producerLoop (keySetFn (storeClient danglingStore) none none false)
      (storeClient danglingStore).MGet 2 0 = some ([], .panicked) ∧
    RedisDB.Iterator { db := danglingStore } storeClient none none 2 = .panic ∧
    RedisDB.ReverseIterator { db := danglingStore } storeClient none none 2 = .panic := by
  decide

end TmDb
